import Mathlib

/-!
Shallow embedding of the function-to-node adapter and the parameter
combination engine of the NodeBasedStreamlitTool repository
(`gen_block/gen_block.py`, `utils.py`,
`modules/default/blocks/default_blocks.py`,
`modules/default/function_modificators/data_combination.py`),
together with theorems checking the specified behaviour of each part
against the embedded code.
-/

namespace NodeTool

/-! ### Return-arity inference (`gen_block.find_return_value_count`) -/

/-- The shapes of the value expression of a Python `return` statement that
`find_return_value_count` distinguishes: a literal tuple with `n` elements,
the constant `None`, any other constant, and any other expression. -/
inductive PyRetExpr : Type
| tupleLit (n : Nat)
| constNone
| constOther
| otherExpr
deriving DecidableEq, Repr

/-- A statement of a Python function body: a `return` statement (`none`
standing for a bare `return` that carries no value expression), or any
other statement.  Statements nested inside a non-return statement are
carried but never counted, because the code only accepts return nodes
that are members of the function's top-level `body` list
(`node in node_.body`). -/
inductive PyStmt : Type
| ret (v : Option PyRetExpr)
| nonRet (nested : List PyStmt)

/-- How one visited `return` statement sets the running count in
`find_return_value_count`: a literal tuple counts its elements; a constant
counts 0 when it is `None` and 1 otherwise; any other expression counts 1.
A bare `return` has `node.value = None` (the Python `None`, not an AST
node), which matches neither `ast.Tuple` nor `ast.Constant`, so it falls
through to the final branch and counts 1. -/
def returnCountOf : Option PyRetExpr → Nat
| some (PyRetExpr.tupleLit n) => n
| some PyRetExpr.constNone => 0
| some PyRetExpr.constOther => 1
| some PyRetExpr.otherExpr => 1
| none => 1

/-- The body of the loop of `find_return_value_count`: a top-level return
statement overwrites the running count, every other statement leaves it. -/
def returnStep (acc : Nat) (s : PyStmt) : Nat :=
  match s with
  | PyStmt.ret v => returnCountOf v
  | PyStmt.nonRet _ => acc

/-- `find_return_value_count`: walk the function body in order and keep,
for the top-level `return` statements only, the count of the last one
visited; the count starts at 0, so a body without a top-level `return`
reports 0 outputs. -/
def find_return_value_count (body : List PyStmt) : Nat :=
  body.foldl returnStep 0

/-- The value expression of the last top-level `return` statement of a
body, when at least one exists. -/
def lastTopLevelReturn (body : List PyStmt) : Option (Option PyRetExpr) :=
  (body.filterMap (fun s =>
    match s with
    | PyStmt.ret v => some v
    | PyStmt.nonRet _ => none)).getLast?

/-- The per-return output count the specification claims: identical to the
code's `returnCountOf` except that a bare `return` is claimed to yield 0
outputs, like `return None`. -/
def claimedReturnCount : Option PyRetExpr → Nat
| some (PyRetExpr.tupleLit n) => n
| some PyRetExpr.constNone => 0
| some PyRetExpr.constOther => 1
| some PyRetExpr.otherExpr => 1
| none => 0

theorem getLast?_cons_elim {α β : Type} (v : α) (l : List α) (acc : β) (f : α → β) :
    Option.elim ((v :: l).getLast?) acc f = Option.elim l.getLast? (f v) f := by
  cases l with
  | nil => rfl
  | cons w l' => rw [List.getLast?_cons_cons]; rfl

theorem find_return_foldl (body : List PyStmt) :
    ∀ acc : Nat, body.foldl returnStep acc
      = Option.elim (lastTopLevelReturn body) acc returnCountOf := by
  induction body with
  | nil => intro acc; rfl
  | cons s rest ih =>
    intro acc
    cases s with
    | ret v =>
      have h : lastTopLevelReturn (PyStmt.ret v :: rest)
          = ((v :: (rest.filterMap (fun s =>
              match s with
              | PyStmt.ret v => some v
              | PyStmt.nonRet _ => none))).getLast?) := rfl
      rw [List.foldl_cons, h, getLast?_cons_elim]
      exact ih (returnStep acc (PyStmt.ret v))
    | nonRet nested =>
      rw [List.foldl_cons]
      exact ih acc

/-- C1, counterexample: the claim states that a bare `return` yields zero
outputs, but `find_return_value_count` infers one output for a body whose
single statement is a bare `return`, because the Python `None` stored as
that statement's value matches neither the tuple branch nor the constant
branch of the code. -/
theorem c1_counterexample :
    ¬ (find_return_value_count [PyStmt.ret none]
        = Option.elim (lastTopLevelReturn [PyStmt.ret none]) 0 claimedReturnCount) := by
  decide

/-- C1, amended: the inferred output count is the count of the last
top-level `return` statement in body order (0 when no top-level return
exists), where a literal tuple counts its elements, the constant `None`
counts 0, and every other return — a bare `return` included — counts 1. -/
theorem c1_return_count_last_wins (body : List PyStmt) :
    find_return_value_count body
      = Option.elim (lastTopLevelReturn body) 0 returnCountOf :=
  find_return_foldl body 0

/-! ### Output publication (`gen_block.compute_func_wrapper`) -/

/-- The value produced by the compute function, as the wrapper inspects
it: a tuple of values, or a single non-tuple value which the wrapper
re-wraps as a one-element tuple
(`if not isinstance(outputs, tuple): outputs = (outputs,)`). -/
inductive PyOutputs (V : Type) : Type
| tup (vs : List V)
| single (v : V)

/-- The tuple of produced values after the wrapper's normalisation. -/
def normalizeOutputs {V : Type} : PyOutputs V → List V
| PyOutputs.tup vs => vs
| PyOutputs.single v => [v]

/-- The `set_interface` calls the wrapper performs:
`zip(outputs, output_names)` pairs produced values with declared output
names, truncating at the shorter of the two. -/
def publishOutputs {V : Type} (outputs : PyOutputs V) (outputNames : List String) :
    List (V × String) :=
  (normalizeOutputs outputs).zip outputNames

theorem zip_map_fst {α β : Type} :
    ∀ (l₁ : List α) (l₂ : List β), (l₁.zip l₂).map Prod.fst = l₁.take l₂.length
| [], _ => by simp
| _ :: _, [] => by simp
| a :: l₁, b :: l₂ => by simp [zip_map_fst l₁ l₂]

theorem zip_map_snd {α β : Type} :
    ∀ (l₁ : List α) (l₂ : List β), (l₁.zip l₂).map Prod.snd = l₂.take l₁.length
| [], _ => by simp
| _ :: _, [] => by simp
| a :: l₁, b :: l₂ => by simp [zip_map_snd l₁ l₂]

/-- C3, counterexample: the claim states that exactly one value is
published per declared output slot, the invocation failing when fewer
values are produced than slots declared; but publishing a 2-tuple into
three declared slots silently publishes only two values and leaves the
third slot untouched. -/
theorem c3_counterexample :
    ¬ ((publishOutputs (PyOutputs.tup [(1 : Nat), 2])
          ["output_1", "output_2", "output_3"]).length = 3) := by
  decide

/-- C3, amended: the wrapper publishes `min(produced, declared)` outputs:
the i-th published pair carries the i-th produced value to the i-th
declared slot, excess produced values are ignored, and when fewer values
are produced than slots are declared the trailing slots are silently left
unpublished (no error is raised). -/
theorem c3_publish_truncates {V : Type} (outputs : PyOutputs V) (outputNames : List String) :
    (publishOutputs outputs outputNames).length
        = min (normalizeOutputs outputs).length outputNames.length ∧
    (publishOutputs outputs outputNames).map Prod.fst
        = (normalizeOutputs outputs).take outputNames.length ∧
    (publishOutputs outputs outputNames).map Prod.snd
        = outputNames.take (normalizeOutputs outputs).length := by
  refine ⟨?_, ?_, ?_⟩
  · exact List.length_zip (normalizeOutputs outputs) outputNames
  · exact zip_map_fst (normalizeOutputs outputs) outputNames
  · exact zip_map_snd (normalizeOutputs outputs) outputNames

/-! ### Data-source normalisation (`DataCombinationDecorator._ensure_tuples`) -/

/-- Dynamically-typed Python values, as far as `_ensure_tuples` inspects
them: an opaque non-sequence value (for instance an ndarray), a 2-tuple, a
dict, or a list.  `list` and `tuple` are `collections.abc.Sequence`
instances; `dict` and opaque values are not. -/
inductive PyV : Type
| base (n : Int)
| tup2 (a b : PyV)
| dict (entries : List (String × PyV))
| list (xs : List PyV)

/-- `isinstance(x, Sequence)`. -/
def isSequencePy : PyV → Bool
| PyV.list _ => true
| PyV.tup2 _ _ => true
| _ => false

/-- `isinstance(x, tuple)`. -/
def isTuplePy : PyV → Bool
| PyV.tup2 _ _ => true
| _ => false

/-- The elements a sequence iterates over. -/
def seqElems : PyV → List PyV
| PyV.list xs => xs
| PyV.tup2 a b => [a, b]
| x => [x]

/-- `_ensure_tuples`: a non-sequence source is first wrapped into a
singleton list; if every element is a tuple the ORIGINAL argument is
returned unchanged, otherwise every element — tuple elements included —
is wrapped as `({}, element)`. -/
def ensure_tuples (arrList : PyV) : PyV :=
  let elts := if isSequencePy arrList then seqElems arrList else [arrList]
  if elts.all isTuplePy then arrList
  else PyV.list (elts.map (fun a => PyV.tup2 (PyV.dict []) a))

/-- C10: confirmed — normalisation is all-or-nothing: a list whose
elements are all tuples is returned unchanged; a list with at least one
non-tuple element has every element (tuples included) wrapped as
`({}, element)`; a non-sequence value is wrapped into a singleton list and
then wrapped. -/
theorem c10_ensure_tuples_all_or_nothing (xs : List PyV) (v : PyV) :
    (xs.all isTuplePy = true → ensure_tuples (PyV.list xs) = PyV.list xs) ∧
    (xs.all isTuplePy = false →
      ensure_tuples (PyV.list xs)
        = PyV.list (xs.map (fun a => PyV.tup2 (PyV.dict []) a))) ∧
    (isSequencePy v = false →
      ensure_tuples v = PyV.list [PyV.tup2 (PyV.dict []) v]) := by
  refine ⟨?_, ?_, ?_⟩
  · intro h
    simp [ensure_tuples, isSequencePy, seqElems, h]
  · intro h
    simp [ensure_tuples, isSequencePy, seqElems, h]
  · intro h
    cases v with
    | base n => simp [ensure_tuples, isSequencePy, seqElems, isTuplePy]
    | tup2 a b => simp [isSequencePy] at h
    | dict d => simp [ensure_tuples, isSequencePy, seqElems, isTuplePy]
    | list xs' => simp [isSequencePy] at h

/-- C10, witness: a singleton list holding one `(dict, value)` pair passes
through unchanged; a mixed list has both its pair element and its bare
element wrapped; a bare non-sequence value is wrapped into a singleton. -/
theorem c10_ensure_tuples_witness :
    ensure_tuples (PyV.list [PyV.tup2 (PyV.dict []) (PyV.base 1)])
        = PyV.list [PyV.tup2 (PyV.dict []) (PyV.base 1)] ∧
    ensure_tuples (PyV.list [PyV.tup2 (PyV.dict []) (PyV.base 1), PyV.base 2])
        = PyV.list [PyV.tup2 (PyV.dict []) (PyV.tup2 (PyV.dict []) (PyV.base 1)),
                    PyV.tup2 (PyV.dict []) (PyV.base 2)] ∧
    ensure_tuples (PyV.base 3) = PyV.list [PyV.tup2 (PyV.dict []) (PyV.base 3)] :=
  ⟨(c10_ensure_tuples_all_or_nothing [PyV.tup2 (PyV.dict []) (PyV.base 1)] (PyV.base 3)).1
      rfl,
   (c10_ensure_tuples_all_or_nothing
      [PyV.tup2 (PyV.dict []) (PyV.base 1), PyV.base 2] (PyV.base 3)).2.1 rfl,
   (c10_ensure_tuples_all_or_nothing [] (PyV.base 3)).2.2 rfl⟩

/-! ### Result caching (`utils.cache_result`) -/

/-- `generate_cache_filename` keys the on-disk cache by a SHA-256 hash of
the pickled `(func.__name__, args, kwargs)` triple; the embedding keys the
store by the triple itself, which the hash identifies up to collisions. -/
def cacheKey {A : Type} (fname : String) (args : A) : String × A :=
  (fname, args)

/-- Reading the pickle file of a key from the cache directory; `none`
models the `IOError`/`PickleError`/`EOFError` path of a missing or
unreadable file. -/
def cacheLookup {A V : Type} [DecidableEq A]
    (store : List ((String × A) × V)) (k : String × A) : Option V :=
  (store.find? (fun p => p.1 == k)).map Prod.snd

/-- Writing the pickle file of a key: overwrite the file when it exists,
create it otherwise. -/
def cacheWrite {A V : Type} [DecidableEq A]
    (store : List ((String × A) × V)) (k : String × A) (v : V) :
    List ((String × A) × V) :=
  if (store.find? (fun p => p.1 == k)).isSome
  then store.map (fun p => if p.1 == k then (k, v) else p)
  else store ++ [(k, v)]

/-- The wrapper produced by `cache_result(reset)`: with `reset = False` it
first tries to load the cached result for the key and returns it on
success; otherwise it executes the function, writes the result to the
cache and returns it.  The pair returned is the call's result together
with the cache store after the call. -/
def cacheWrapper {A V : Type} [DecidableEq A] (reset : Bool) (fname : String)
    (func : A → V) (store : List ((String × A) × V)) (args : A) :
    V × List ((String × A) × V) :=
  match (if !reset then cacheLookup store (cacheKey fname args) else none) with
  | some v => (v, store)
  | none =>
    let r := func args
    (r, cacheWrite store (cacheKey fname args) r)

theorem cacheLookup_write {A V : Type} [DecidableEq A]
    (store : List ((String × A) × V)) (k : String × A) (v : V) :
    cacheLookup (cacheWrite store k v) k = some v := by
  induction store with
  | nil => simp [cacheWrite, cacheLookup]
  | cons p rest ih =>
    by_cases hpk : (p.1 == k) = true
    · have hpk' : p.1 = k := by simpa using hpk
      have hfind : (p :: rest).find? (fun q => q.1 == k) = some p :=
        List.find?_cons_of_pos _ hpk
      have hw : cacheWrite (p :: rest) k v
          = (k, v) :: rest.map (fun q => if q.1 == k then (k, v) else q) := by
        simp [cacheWrite, hfind, hpk']
      rw [hw]
      show (List.find? (fun q => q.1 == k)
        ((k, v) :: rest.map (fun q => if q.1 == k then (k, v) else q))).map Prod.snd
          = some v
      have hstep : List.find? (fun q : (String × A) × V => q.1 == k)
          ((k, v) :: rest.map (fun q => if q.1 == k then (k, v) else q)) = some (k, v) :=
        List.find?_cons_of_pos _ (by simp)
      rw [hstep]
      rfl
    · have hpk' : ¬ p.1 = k := by simpa using hpk
      have hwrite : cacheWrite (p :: rest) k v = p :: cacheWrite rest k v := by
        simp only [cacheWrite, List.find?_cons_of_neg _ hpk]
        by_cases hr : (rest.find? (fun q => q.1 == k)).isSome = true
        · simp [hr, hpk']
        · simp [hr, hpk']
      rw [hwrite]
      show (List.find? (fun q => q.1 == k) (p :: cacheWrite rest k v)).map Prod.snd
        = some v
      have hstep : List.find? (fun q : (String × A) × V => q.1 == k)
          (p :: cacheWrite rest k v)
          = List.find? (fun q => q.1 == k) (cacheWrite rest k v) :=
        List.find?_cons_of_neg _ hpk
      rw [hstep]
      exact ih

/-- C5: confirmed — a second invocation with arguments identical to a
previous one returns the previously computed result with the cache store
unchanged, and the second call's behaviour does not depend on the
underlying function (`g` is arbitrary), so the underlying function is not
re-executed: the cache hit short-circuits execution. -/
theorem c5_cache_idempotent {A V : Type} [DecidableEq A]
    (fname : String) (func g : A → V)
    (store : List ((String × A) × V)) (args : A) :
    cacheWrapper false fname g (cacheWrapper false fname func store args).2 args
      = ((cacheWrapper false fname func store args).1,
         (cacheWrapper false fname func store args).2) := by
  cases h : cacheLookup store (cacheKey fname args) with
  | some v => simp [cacheWrapper, h]
  | none => simp [cacheWrapper, h, cacheLookup_write]

/-- C5, witness: with an empty store, calling a concrete function at `0`
and then calling again at `0` (with a would-be different function in
place) yields the first call's result and leaves the store unchanged. -/
theorem c5_cache_idempotent_witness :
    cacheWrapper false "f" (fun _ => (99 : Nat))
        (cacheWrapper false "f" (fun n => n + 1) ([] : List ((String × Nat) × Nat)) 0).2 0
      = ((cacheWrapper false "f" (fun n => n + 1) ([] : List ((String × Nat) × Nat)) 0).1,
         (cacheWrapper false "f" (fun n => n + 1) ([] : List ((String × Nat) × Nat)) 0).2) :=
  c5_cache_idempotent "f" (fun n => n + 1) (fun _ => 99) [] 0

/-! ### Range expansion (`default_blocks.generate_combinations.get_values`) -/

/-- `np.arange(start, stop, step)` with Python floats modelled as exact
rationals: `max 0 ⌈(stop - start) / step⌉` values `start + k * step`. -/
def npArange (start stop step : ℚ) : List ℚ :=
  (List.range (⌈(stop - start) / step⌉).toNat).map (fun k => start + (k : ℚ) * step)

/-- A leaf parameter specification as `get_values` distinguishes it: a
dict holding `from`, `to` and `step` keys, any other dict of named
alternatives, or a scalar. -/
inductive ParamSpec : Type
| range (f t s : ℚ)
| alts (entries : List (String × ℚ))
| scalar (v : ℚ)

/-- `get_values`: a range dict runs `np.arange(from, to + step/2, step)`;
any other dict yields `list(set(...))` of its values (CPython's set
ordering is implementation-defined, the embedding deduplicates keeping
later occurrences); anything else is a singleton. -/
def get_values : ParamSpec → List ℚ
| ParamSpec.range f t s => npArange f (t + s / 2) s
| ParamSpec.alts entries => (entries.map Prod.snd).dedup
| ParamSpec.scalar v => [v]

/-- C4: confirmed — for a positive step and an endpoint on the step grid
(`to = from + m*step`), the range expands to the inclusive arithmetic
sequence from `from` up to and including `to`: the half-step tolerance
added to the upper bound makes `⌈(to + step/2 - from)/step⌉ = m + 1`
values. -/
theorem c4_range_inclusive (f t s : ℚ) (m : ℕ) (hs : 0 < s)
    (ht : t = f + (m : ℚ) * s) :
    get_values (ParamSpec.range f t s)
      = (List.range (m + 1)).map (fun k => f + (k : ℚ) * s) := by
  have hs' : s ≠ 0 := ne_of_gt hs
  have hdiv : (t + s / 2 - f) / s = 1 / 2 + ((m : ℤ) : ℚ) := by
    rw [ht]
    field_simp
    ring
  have hhalf : ⌈(1 : ℚ) / 2⌉ = 1 := by
    rw [Int.ceil_eq_iff]
    constructor <;> norm_num
  have hceil : ⌈(t + s / 2 - f) / s⌉ = (m : ℤ) + 1 := by
    rw [hdiv, Int.ceil_add_int, hhalf]
    omega
  have hnat : (⌈(t + s / 2 - f) / s⌉).toNat = m + 1 := by
    rw [hceil]
    omega
  simp [get_values, npArange, hnat]

/-- C4, witness: the spec's own instance — the range `{from: 0, to: 1,
step: 0.5}` expands to `[0, 0.5, 1.0]`, endpoint included. -/
theorem c4_range_inclusive_witness :
    (0 : ℚ) < 1 / 2 ∧ (1 : ℚ) = 0 + ((2 : ℕ) : ℚ) * (1 / 2) ∧
    get_values (ParamSpec.range 0 1 (1 / 2)) = [0, 1 / 2, 1] := by
  refine ⟨by norm_num, by norm_num, ?_⟩
  rw [c4_range_inclusive 0 1 (1 / 2) 2 (by norm_num) (by norm_num)]
  norm_num [List.range_succ]

/-! ### Random-seed override (`generate_combinations` with `replace_item`) -/

/-- A nested Python dict value as `replace_item` traverses it: an integer
leaf or a nested dict of string keys. -/
inductive NVal : Type
| leaf (n : Int)
| dict (entries : List (String × NVal))

/-- `obj[key] = replace_value` on a dict that holds `key`: overwrite the
binding in place. -/
def overwriteKey (key : String) (rv : NVal) (d : List (String × NVal)) :
    List (String × NVal) :=
  d.map (fun p => if p.1 == key then (p.1, rv) else p)

mutual

/-- `replace_item`: recursively replace the value bound to `key` inside
every nested dict value, then, if `key` is bound at the current level,
overwrite that binding with the replacement value. -/
def replaceItem (key : String) (rv : NVal) : NVal → NVal
| NVal.leaf n => NVal.leaf n
| NVal.dict d =>
  let d1 := replaceList key rv d
  NVal.dict (if d1.any (fun p => p.1 == key) then overwriteKey key rv d1 else d1)

/-- The loop `for k, v in obj.items(): if isinstance(v, dict): obj[k] = replace_item(v, ...)`:
non-dict values pass through `replaceItem` unchanged. -/
def replaceList (key : String) (rv : NVal) : List (String × NVal) → List (String × NVal)
| [] => []
| (k, v) :: rest => (k, replaceItem key rv v) :: replaceList key rv rest

end

/-- Does this value equal the integer leaf `n`? -/
def isLeafEq (x : NVal) (n : Int) : Bool :=
  match x with
  | NVal.leaf m => m == n
  | NVal.dict _ => false

mutual

/-- Every binding of `key`, at any nesting depth, carries the integer
leaf `n`. -/
def allKeyEqB (key : String) (n : Int) : NVal → Bool
| NVal.leaf _ => true
| NVal.dict d => allKeyEqBL key n d

def allKeyEqBL (key : String) (n : Int) : List (String × NVal) → Bool
| [] => true
| (k, v) :: rest =>
  (!(k == key) || isLeafEq v n) && allKeyEqB key n v && allKeyEqBL key n rest

end

theorem allKeyEqBL_overwrite (key : String) (n : Int) :
    ∀ d : List (String × NVal),
      d.all (fun p => allKeyEqB key n p.2) = true →
      allKeyEqBL key n (overwriteKey key (NVal.leaf n) d) = true := by
  intro d
  induction d with
  | nil => intro _; rfl
  | cons p rest ih =>
    intro h
    obtain ⟨k, v⟩ := p
    rw [List.all_cons, Bool.and_eq_true] at h
    have hrest := ih h.2
    cases hk : (k == key) with
    | true =>
      have hhead : (if ((k, v).1 == key) = true then ((k, v).1, NVal.leaf n) else (k, v))
          = (k, NVal.leaf n) := by simp [hk]
      simp only [overwriteKey, List.map_cons] at hrest ⊢
      rw [hhead]
      simp [allKeyEqBL, allKeyEqB, isLeafEq, hk]
      simpa using hrest
    | false =>
      have hhead : (if ((k, v).1 == key) = true then ((k, v).1, NVal.leaf n) else (k, v))
          = (k, v) := by simp [hk]
      simp only [overwriteKey, List.map_cons] at hrest ⊢
      rw [hhead]
      simp [allKeyEqBL, hk, h.1]
      simpa using hrest

theorem allKeyEqBL_noKey (key : String) (n : Int) :
    ∀ d : List (String × NVal),
      d.all (fun p => allKeyEqB key n p.2) = true →
      d.any (fun p => p.1 == key) = false →
      allKeyEqBL key n d = true := by
  intro d
  induction d with
  | nil => intro _ _; rfl
  | cons p rest ih =>
    intro h hk
    obtain ⟨k, v⟩ := p
    rw [List.all_cons, Bool.and_eq_true] at h
    rw [List.any_cons] at hk
    have hk1 : (k == key) = false := by
      cases hbeq : (k == key) <;> simp [hbeq] at hk ⊢
    have hk2 : rest.any (fun p => p.1 == key) = false := by
      cases hany : rest.any (fun p => p.1 == key) <;> simp [hany, hk1] at hk ⊢
    simp [allKeyEqBL, hk1, h.1, ih h.2 hk2]

mutual

theorem allKeyEqB_replaceItem (key : String) (n : Int) :
    ∀ x : NVal, allKeyEqB key n (replaceItem key (NVal.leaf n) x) = true
| NVal.leaf m => rfl
| NVal.dict d => by
    have hvals := replaceList_valuesOK key n d
    by_cases h : ((replaceList key (NVal.leaf n) d).any (fun p => p.1 == key)) = true
    · have := allKeyEqBL_overwrite key n (replaceList key (NVal.leaf n) d) hvals
      simpa [replaceItem, allKeyEqB, h] using this
    · have h' : ((replaceList key (NVal.leaf n) d).any (fun p => p.1 == key)) = false := by
        cases hany : ((replaceList key (NVal.leaf n) d).any (fun p => p.1 == key)) <;>
          simp [hany] at h ⊢
      have := allKeyEqBL_noKey key n (replaceList key (NVal.leaf n) d) hvals h'
      simpa [replaceItem, allKeyEqB, h'] using this

theorem replaceList_valuesOK (key : String) (n : Int) :
    ∀ d : List (String × NVal),
      (replaceList key (NVal.leaf n) d).all (fun p => allKeyEqB key n p.2) = true
| [] => rfl
| (k, v) :: rest => by
    have h1 := allKeyEqB_replaceItem key n v
    have h2 := replaceList_valuesOK key n rest
    simp [replaceList, List.all_cons, h1, h2]

end

/-- The seed-override stage of `generate_combinations`: when the
random-seed session flag is set, `np.random.randint` draws one integer
per combination and `replace_item(comb, "seed", seeds[i])` is applied to
combination `i`; otherwise the combinations pass through unchanged.  The
drawn array is modelled by the function `draw`. -/
def applySeedOverride (randomSeed : Bool) (draw : Nat → Int) (combos : List NVal) :
    List NVal :=
  if randomSeed then
    combos.enum.map (fun p => replaceItem "seed" (NVal.leaf (draw p.1)) p.2)
  else combos

/-- C6: confirmed — whenever the random-seed mode flag is set, the i-th
produced combination has every nested `seed` binding equal to the i-th
independently drawn integer, whatever the combination previously held
there — including a seed that came from an explicitly-specified seed spec
in the grid. -/
theorem c6_seed_override (draw : Nat → Int) (combos : List NVal) (i : Nat) (c : NVal)
    (h : (applySeedOverride true draw combos)[i]? = some c) :
    allKeyEqB "seed" (draw i) c = true := by
  simp only [applySeedOverride, if_pos, List.getElem?_map, List.getElem?_enum] at h
  cases hc : combos[i]? with
  | none => rw [hc] at h; simp at h
  | some x =>
    rw [hc] at h
    simp only [Option.map_some'] at h
    have hx : c = replaceItem "seed" (NVal.leaf (draw i)) x := by
      exact (Option.some.inj h).symm
    rw [hx]
    exact allKeyEqB_replaceItem "seed" (draw i) x

/-- C6, witness: a combination whose grid explicitly specified `seed = 42`
at top level and `seed = 7` inside a nested dict has both occurrences
overwritten by the drawn value 5. -/
theorem c6_seed_override_witness :
    allKeyEqB "seed" 5
      (NVal.dict [("seed", NVal.leaf 5),
                  ("nested", NVal.dict [("seed", NVal.leaf 5)])]) = true :=
  c6_seed_override (fun _ => 5)
    [NVal.dict [("seed", NVal.leaf 42),
                ("nested", NVal.dict [("seed", NVal.leaf 7)])]] 0
    (NVal.dict [("seed", NVal.leaf 5),
                ("nested", NVal.dict [("seed", NVal.leaf 5)])])
    (by rfl)

/-! ### Data-source combination (`DataCombinationDecorator._generate_data_combinations`) -/

/-- `list(zip(*v))`: positional zip of a group of lists into one list per
position, truncating at the shortest list; `zip()` of no lists yields
nothing. -/
def zipGroup {α : Type} : List (List α) → List (List α)
| [] => []
| [xs] => xs.map (fun x => [x])
| xs :: rest => (xs.zip (zipGroup rest)).map (fun p => p.1 :: p.2)

/-- `list(itertools.product(*v))`: the cross product of a group of lists,
rightmost list varying fastest; the product of no lists is one empty
combination. -/
def productGroup {α : Type} : List (List α) → List (List α)
| [] => [[]]
| xs :: rest => xs.flatMap (fun x => (productGroup rest).map (fun ys => x :: ys))

/-- `list(set(zip_data))`: the distinct zip flags.  CPython's set ordering
is implementation-defined; the embedding keeps first occurrences, and the
theorems below do not depend on this order. -/
def uniqueFlags (flags : List Nat) : List Nat :=
  flags.foldl (fun acc f => if f ∈ acc then acc else acc ++ [f]) []

/-- The data sources that carry flag `k`, in their original order
(`for zip_flag, data_sources_ in zip(zip_data, data_sources)` grouped into
`dict_of_zip`). -/
def groupSources {α : Type} (flags : List Nat) (sources : List (List α)) (k : Nat) :
    List (List α) :=
  ((flags.zip sources).filter (fun p => p.1 == k)).map Prod.snd

/-- One entry per distinct flag, in flag order: a non-zero flag zips its
group of sources, flag 0 takes the cross product of its group. -/
def setsOfCombinations {α : Type} (flags : List Nat) (sources : List (List α)) :
    List (Nat × List (List α)) :=
  (uniqueFlags flags).map (fun k =>
    (k, if k ≠ 0 then zipGroup (groupSources flags sources k)
        else productGroup (groupSources flags sources k)))

/-- One step of the reconstruction loop: place `v` at the first position
whose pending flag equals `flag` (`position = zip_data_tmp.index(flag)`)
and mark that position used (`zip_data_tmp[position] = None`).  Python's
`list.index` would raise were the flag absent, which cannot happen; the
embedding then leaves the state unchanged. -/
def placeValue {α : Type} (flag : Nat) (st : List (Option Nat) × List (Option α))
    (v : α) : List (Option Nat) × List (Option α) :=
  match st.1.findIdx? (fun f => f == some flag) with
  | some pos => (st.1.set pos none, st.2.set pos (some v))
  | none => st

/-- Place all values of one group's fragment. -/
def placeGroup {α : Type} (st : List (Option Nat) × List (Option α)) (flag : Nat)
    (values : List α) : List (Option Nat) × List (Option α) :=
  values.foldl (placeValue flag) st

/-- Rebuild one combination in original source order: starting from a
fresh `temp_list` of `None` entries, place each group's values at the
positions of that group's flag. -/
def reconstructCombination {α : Type} (flags : List Nat) (groupFlags : List Nat)
    (combo : List (List α)) : List (Option α) :=
  ((groupFlags.zip combo).foldl (fun st p => placeGroup st p.1 p.2)
    (flags.map some, flags.map (fun _ => (none : Option α)))).2

/-- `_generate_data_combinations`: group the sources by flag, zip or
cross-multiply each group, cross-multiply across the groups, and rebuild
every combination in original source order. -/
def generate_data_combinations {α : Type} (flags : List Nat) (sources : List (List α)) :
    List (List (Option α)) :=
  let sets := setsOfCombinations flags sources
  (productGroup (sets.map Prod.snd)).map
    (fun combo => reconstructCombination flags (sets.map Prod.fst) combo)

/-! ### Parameter dictionaries (`process_list_of_dicts`, `_compute_results`) -/

/-- A Python dict with string keys modelled as an association list with
unique keys and first-match lookup; a `none` value stands for Python
`None`. -/
abbrev PDict (V : Type) : Type := List (String × Option V)

/-- `d[k]` / `k in d`. -/
def dictLookup {V : Type} (d : PDict V) (k : String) : Option (Option V) :=
  (d.find? (fun p => p.1 == k)).map Prod.snd

/-- `d[k] = v`: overwrite the existing binding in place, or append a new
binding. -/
def dictInsert {V : Type} (d : PDict V) (k : String) (v : Option V) : PDict V :=
  if (d.find? (fun p => p.1 == k)).isSome
  then d.map (fun p => if p.1 == k then (p.1, v) else p)
  else d ++ [(k, v)]

/-- `d.update(e)`: insert every binding of `e` into `d` in order. -/
def dictUpdate {V : Type} (d e : PDict V) : PDict V :=
  e.foldl (fun acc p => dictInsert acc p.1 p.2) d

/-- A dict comprehension: build a dict from a list of bindings, later
duplicates overwriting earlier ones. -/
def dictOfList {V : Type} (l : List (String × Option V)) : PDict V :=
  l.foldl (fun acc p => dictInsert acc p.1 p.2) []

/-- `data_param_names = [list(param_names.keys())[i] for i in self.data_params]`.
The signature is a list of parameter names with their optional declared
default (`none` = `inspect._empty`; a present default may itself be the
Python `None`).  An out-of-range index would raise `IndexError` in Python;
the embedding yields `""` there and the theorems assume valid indices. -/
def dataParamNames {V : Type} (sig : List (String × Option (Option V)))
    (dataParams : List Nat) : List String :=
  dataParams.map (fun i => (sig.map Prod.fst).getD i "")

/-- `default_param_values`: for every non-data parameter its default, with
`inspect._empty` replaced by Python `None`.  CPython iterates a set here;
the embedding follows signature order, on which the content theorems do
not depend. -/
def defaultParamValues {V : Type} (sig : List (String × Option (Option V)))
    (dataNames : List String) : PDict V :=
  (sig.filter (fun p => !(dataNames.contains p.1))).map (fun p => (p.1, p.2.getD none))

/-- `if k not in d: d[k] = v`. -/
def fillMissing {V : Type} (d : PDict V) (k : String) (v : Option V) : PDict V :=
  if (dictLookup d k).isSome then d else d ++ [(k, v)]

/-- `process_list_of_dicts`: fill every grid entry with the defaults of
the non-data parameters it lacks and report the data-parameter names.
The embedding takes the grid already in list form (`[dict]` when a single
dict was passed, `[{}]` when `None` was passed). -/
def process_list_of_dicts {V : Type} (sig : List (String × Option (Option V)))
    (dataParams : List Nat) (grids : List (PDict V)) : List (PDict V) × List String :=
  let dataNames := dataParamNames sig dataParams
  let dpv := defaultParamValues sig dataNames
  (dpv.foldl (fun gs p => gs.map (fun d => fillMissing d p.1 p.2)) grids, dataNames)

/-- Pair data combinations with grid entries: positional zip when
`zip_data_with_params` is set, otherwise
`itertools.product(data_combinations, list_dict_params_)`. -/
def combineDataParams {D P : Type} (zipDataParams : Bool) (dc : List D) (ps : List P) :
    List (D × P) :=
  if zipDataParams then dc.zip ps
  else dc.flatMap (fun d => ps.map (fun p => (d, p)))

/-- The per-combination body of `_compute_results`: collect each data
item's provenance suffixed by its parameter name, bind data values to
their parameter names, suffix grid parameters with the function name for
storage (`updated_params`) and strip that suffix again for the call
(`real_params`, via `key.split("_" + func_name)[0]`), then call the
function.  `func(**data_values, **real_params)` is modelled by calling
`func` on the merged dict. -/
def computeOne {V : Type} (addNewParams : Bool) (func : PDict V → Option V)
    (funcName : String) (dataNames : List String)
    (dataSet : List (PDict V × Option V)) (params : PDict V) : PDict V × Option V :=
  let storedParams := dataSet.enum.foldl (fun acc p =>
    dictUpdate acc (p.2.1.map (fun kv => (kv.1 ++ "_" ++ dataNames.getD p.1 "", kv.2)))) []
  let dataValues := dataSet.enum.foldl (fun acc p =>
    dictInsert acc (dataNames.getD p.1 "") p.2.2) []
  let updatedParams := dictOfList (params.map (fun kv => (kv.1 ++ "_" ++ funcName, kv.2)))
  let realParams := dictOfList (updatedParams.map (fun kv =>
    ((kv.1.splitOn ("_" ++ funcName)).headD "", kv.2)))
  let storedParams' := if addNewParams then dictUpdate storedParams updatedParams
                       else storedParams
  (storedParams', func (dictUpdate dataValues realParams))

/-- `_compute_results`: process the grid entries, pair them with the data
combinations (zip or cross product) and compute one `(stored_params,
result)` pair per final combination. -/
def compute_results {V : Type} (zipDataParams addNewParams : Bool)
    (func : PDict V → Option V) (funcName : String)
    (sig : List (String × Option (Option V))) (dataParams : List Nat)
    (dataCombinations : List (List (PDict V × Option V)))
    (listDictParams : List (PDict V)) : List (PDict V × Option V) :=
  let pr := process_list_of_dicts sig dataParams listDictParams
  (combineDataParams zipDataParams dataCombinations pr.1).map
    (fun c => computeOne addNewParams func funcName pr.2 c.1 c.2)

/-- The wrapper's data path feeding `_compute_results`: generate the
flagged combinations and read each reconstructed slot.  Every slot of a
reconstructed combination is filled (each position's flag belongs to
exactly one group, whose fragment supplies it); Python reads `item[0]` and
`item[1]` directly, the embedding extracts the filled values. -/
def wrapperDataCombinations {V : Type} (flags : List Nat)
    (sources : List (List (PDict V × Option V))) : List (List (PDict V × Option V)) :=
  (generate_data_combinations flags sources).map (fun c => c.filterMap id)

/-- The `result_as_params` stage of the wrapper: the comprehension
`[(res[0].update({func_name: res[1]}), res[1]) for res in result]` stores
the value of `res[0].update(...)` as the first tuple component — and
`dict.update` mutates in place and evaluates to the Python `None`, so
every element's first component becomes `None`.  Without the option the
elements pass through unchanged. -/
def applyResultAsParams {V : Type} (resultAsParams : Bool) (_funcName : String)
    (result : List (PDict V × Option V)) : List (Option (PDict V) × Option V) :=
  if resultAsParams then result.map (fun res => ((none : Option (PDict V)), res.2))
  else result.map (fun res => (some res.1, res.2))

/-! ### Cardinality lemmas for the combination engine -/

theorem flatMap_const_length {α β : Type} (l : List α) (f : α → List β) (c : Nat)
    (h : ∀ a, (f a).length = c) : (l.flatMap f).length = l.length * c := by
  induction l with
  | nil => simp
  | cons a l ih =>
    simp only [List.flatMap_cons, List.length_append, h, ih, List.length_cons]
    ring

theorem productGroup_length {α : Type} :
    ∀ L : List (List α), (productGroup L).length = (L.map List.length).prod
| [] => rfl
| xs :: rest => by
    have h := flatMap_const_length xs
      (fun x => (productGroup rest).map (fun ys => x :: ys))
      (productGroup rest).length (fun a => by simp)
    simp [productGroup, h, productGroup_length rest]

theorem zipGroup_pair_length {α : Type} (s t : List α) :
    (zipGroup [s, t]).length = min s.length t.length := by
  simp [zipGroup]

theorem uniqueFlags_pair (f : Nat) : uniqueFlags [f, f] = [f] := by
  simp [uniqueFlags]

theorem groupSources_pair {α : Type} (f : Nat) (s t : List α) :
    groupSources [f, f] [s, t] f = [s, t] := by
  simp [groupSources]

theorem setsOfCombinations_zip_pair {α : Type} (f : Nat) (hf : f ≠ 0) (s t : List α) :
    setsOfCombinations [f, f] [s, t] = [(f, zipGroup [s, t])] := by
  simp [setsOfCombinations, uniqueFlags_pair, groupSources_pair, hf]

theorem setsOfCombinations_cross_pair {α : Type} (s t : List α) :
    setsOfCombinations [0, 0] [s, t] = [(0, productGroup [s, t])] := by
  simp [setsOfCombinations, uniqueFlags_pair, groupSources_pair]

/-- C2, counterexample: zip-combining two sources of lengths 3 and 4 that
share the non-zero flag 1 does not fail — no `LengthMismatch` error exists
in the code — but silently produces the 3 positionally zipped
combinations. -/
theorem c2_counterexample :
    generate_data_combinations [1, 1] [[(1 : Nat), 2, 3], [4, 5, 6, 7]]
      = [[some 1, some 4], [some 2, some 5], [some 3, some 6]] := by
  rfl

/-- C2, amended: two data sources sharing the same non-zero zip flag are
zipped positionally with truncation at the shorter source — lengths 3 and
4 yield 3 combinations and no error is raised. -/
theorem c2_zip_truncates {α : Type} (f : Nat) (hf : f ≠ 0) (s t : List α) :
    (generate_data_combinations [f, f] [s, t]).length = min s.length t.length := by
  simp [generate_data_combinations, setsOfCombinations_zip_pair f hf s t,
    productGroup_length, zipGroup_pair_length]

/-- C2, witness: flag 2 on sources of lengths 3 and 4 yields
`min 3 4 = 3` combinations. -/
theorem c2_zip_truncates_witness :
    (2 : Nat) ≠ 0 ∧
    (generate_data_combinations [2, 2] [[(10 : Nat), 20, 30], [1, 2, 3, 4]]).length
      = min 3 4 :=
  ⟨by decide, by
    simpa using c2_zip_truncates 2 (by decide) [(10 : Nat), 20, 30] [1, 2, 3, 4]⟩

theorem combineDataParams_cross_length {D P : Type} (dc : List D) (ps : List P) :
    (combineDataParams false dc ps).length = dc.length * ps.length := by
  simpa [combineDataParams] using
    flatMap_const_length dc (fun d => ps.map (fun p => (d, p))) ps.length
      (fun d => by simp)

theorem foldl_map_length {γ δ : Type} (g : γ → δ → δ) :
    ∀ (L : List γ) (gs : List δ),
      (L.foldl (fun acc x => acc.map (g x)) gs).length = gs.length
| [], _ => rfl
| x :: L, gs => by
    simpa using foldl_map_length g L (gs.map (g x))

theorem process_preserves_length {V : Type} (sig : List (String × Option (Option V)))
    (dataParams : List Nat) (grids : List (PDict V)) :
    ((process_list_of_dicts sig dataParams grids).1).length = grids.length := by
  show ((defaultParamValues sig (dataParamNames sig dataParams)).foldl
      (fun (gs : List (PDict V)) (p : String × Option V) =>
        gs.map (fun d => fillMissing d p.1 p.2)) grids).length
    = grids.length
  exact foldl_map_length
    (fun (p : String × Option V) (d : PDict V) => fillMissing d p.1 p.2) _ grids

/-- C7: confirmed — combining two non-zipped sources (both flagged 0) with
a parameter grid in cross-product mode produces exactly
`|s| * |t| * |grid|` results; in particular lengths 2 and 3 with a 2-entry
grid yield 12. -/
theorem c7_cross_product_card {V : Type} (addNewParams : Bool)
    (func : PDict V → Option V) (funcName : String)
    (sig : List (String × Option (Option V))) (dataParams : List Nat)
    (s t : List (PDict V × Option V)) (grids : List (PDict V)) :
    (compute_results false addNewParams func funcName sig dataParams
        (wrapperDataCombinations [0, 0] [s, t]) grids).length
      = s.length * t.length * grids.length := by
  have hcr : compute_results false addNewParams func funcName sig dataParams
      (wrapperDataCombinations [0, 0] [s, t]) grids
      = (combineDataParams false (wrapperDataCombinations [0, 0] [s, t])
          (process_list_of_dicts sig dataParams grids).1).map
        (fun c => computeOne addNewParams func funcName
          (process_list_of_dicts sig dataParams grids).2 c.1 c.2) := rfl
  rw [hcr, List.length_map, combineDataParams_cross_length,
    process_preserves_length]
  have hdc : (wrapperDataCombinations [0, 0] [s, t]).length = s.length * t.length := by
    simp [wrapperDataCombinations, generate_data_combinations,
      setsOfCombinations_cross_pair, productGroup_length]
  rw [hdc]

/-! ### Default filling lemmas (`process_list_of_dicts`) -/

theorem dictLookup_append_ne {V : Type} (d : PDict V) (k1 k : String) (v1 : Option V)
    (h : (k1 == k) = false) :
    dictLookup (d ++ [(k1, v1)]) k = dictLookup d k := by
  induction d with
  | nil => simp [dictLookup, List.find?, h]
  | cons p d ih =>
    cases hpk : (p.1 == k) with
    | true =>
      simp [dictLookup, List.find?, hpk]
    | false =>
      simpa [dictLookup, List.find?, hpk] using ih

theorem dictLookup_append_self {V : Type} (d : PDict V) (k : String) (v : Option V)
    (h : dictLookup d k = none) :
    dictLookup (d ++ [(k, v)]) k = some v := by
  induction d with
  | nil => simp [dictLookup, List.find?]
  | cons p d ih =>
    cases hpk : (p.1 == k) with
    | true => simp [dictLookup, List.find?, hpk] at h
    | false =>
      have h' : dictLookup d k = none := by
        simpa [dictLookup, List.find?, hpk] using h
      simpa [dictLookup, List.find?, hpk] using ih h'

theorem dictLookup_fillMissing_ne {V : Type} (d : PDict V) (k1 k : String)
    (v1 : Option V) (h : (k1 == k) = false) :
    dictLookup (fillMissing d k1 v1) k = dictLookup d k := by
  unfold fillMissing
  by_cases hs : (dictLookup d k1).isSome = true
  · simp [hs]
  · simp [hs, dictLookup_append_ne d k1 k v1 h]

theorem dictLookup_fillMissing_self {V : Type} (d : PDict V) (k : String)
    (v : Option V) (h : dictLookup d k = none) :
    dictLookup (fillMissing d k v) k = some v := by
  unfold fillMissing
  rw [h]
  simpa using dictLookup_append_self d k v h

theorem foldl_fill_lookup_preserved {V : Type} :
    ∀ (L : PDict V) (d : PDict V) (k : String),
      (∀ kv ∈ L, (kv.1 == k) = false) →
      dictLookup (L.foldl
        (fun (d : PDict V) (p : String × Option V) => fillMissing d p.1 p.2) d) k
        = dictLookup d k
| [], _, _, _ => rfl
| (k1, v1) :: L, d, k, h => by
    have h1 : (k1 == k) = false := h (k1, v1) (List.mem_cons_self _ _)
    have h2 : ∀ kv ∈ L, (kv.1 == k) = false := fun kv hkv => h kv (List.mem_cons_of_mem _ hkv)
    rw [List.foldl_cons]
    rw [foldl_fill_lookup_preserved L (fillMissing d k1 v1) k h2]
    exact dictLookup_fillMissing_ne d k1 k v1 h1

theorem foldl_fill_lookup {V : Type} :
    ∀ (L : PDict V) (d : PDict V) (k : String) (v : Option V),
      (k, v) ∈ L →
      (L.map Prod.fst).Nodup →
      dictLookup d k = none →
      dictLookup (L.foldl
        (fun (d : PDict V) (p : String × Option V) => fillMissing d p.1 p.2) d) k
        = some v
| [], _, _, _, hmem, _, _ => absurd hmem (List.not_mem_nil _)
| (k1, v1) :: L, d, k, v, hmem, hnodup, habsent => by
    rw [List.map_cons, List.nodup_cons] at hnodup
    rw [List.foldl_cons]
    rcases List.mem_cons.mp hmem with heq | hmemL
    · have hk1 : k1 = k := (congrArg Prod.fst heq).symm
      have hv1 : v1 = v := (congrArg Prod.snd heq).symm
      subst hk1
      subst hv1
      have hset : dictLookup (fillMissing d k1 v1) k1 = some v1 :=
        dictLookup_fillMissing_self d k1 v1 habsent
      have hothers : ∀ kv ∈ L, (kv.1 == k1) = false := by
        intro kv hkv
        have : kv.1 ∈ L.map Prod.fst := List.mem_map_of_mem Prod.fst hkv
        have hne : kv.1 ≠ k1 := fun he => hnodup.1 (he ▸ this)
        simpa using hne
      rw [foldl_fill_lookup_preserved L (fillMissing d k1 v1) k1 hothers]
      exact hset
    · have hk1ne : (k1 == k) = false := by
        have hkmem : k ∈ L.map Prod.fst := List.mem_map_of_mem Prod.fst hmemL
        have : k1 ≠ k := fun he => hnodup.1 (he ▸ hkmem)
        simpa using this
      have habsent' : dictLookup (fillMissing d k1 v1) k = none := by
        rw [dictLookup_fillMissing_ne d k1 k v1 hk1ne]
        exact habsent
      exact foldl_fill_lookup L (fillMissing d k1 v1) k v hmemL hnodup.2 habsent'

theorem foldl_map_get {γ δ : Type} (g : γ → δ → δ) :
    ∀ (L : List γ) (gs : List δ) (j : Nat),
      (L.foldl (fun acc x => acc.map (g x)) gs)[j]?
        = (gs[j]?).map (fun d => L.foldl (fun d x => g x d) d)
| [], gs, j => by
    simp
| x :: L, gs, j => by
    rw [List.foldl_cons, foldl_map_get g L (gs.map (g x)) j, List.getElem?_map]
    cases gs[j]? <;> simp

theorem mem_defaultParamValues {V : Type} (sig : List (String × Option (Option V)))
    (dataNames : List String) (k : String) (w : Option (Option V))
    (hmem : (k, w) ∈ sig) (hk : dataNames.contains k = false) :
    (k, w.getD none) ∈ defaultParamValues sig dataNames := by
  unfold defaultParamValues
  have hk' : ¬ k ∈ dataNames := by simpa using hk
  exact List.mem_map_of_mem _ (List.mem_filter.mpr ⟨hmem, by simp [hk']⟩)

theorem defaultParamValues_keys_nodup {V : Type}
    (sig : List (String × Option (Option V))) (dataNames : List String)
    (h : (sig.map Prod.fst).Nodup) :
    ((defaultParamValues sig dataNames).map Prod.fst).Nodup := by
  unfold defaultParamValues
  rw [List.map_map]
  have heq : ((sig.filter (fun p => !(dataNames.contains p.1))).map
      (Prod.fst ∘ (fun p => (p.1, p.2.getD (none : Option V))))) =
      (sig.filter (fun p => !(dataNames.contains p.1))).map Prod.fst := rfl
  rw [heq]
  exact List.Nodup.sublist (List.Sublist.map Prod.fst (List.filter_sublist sig)) h

/-- C8, counterexample: `y` is a non-default, non-data parameter of the
signature (`x` has default 5, `d` at index 1 is the data parameter) and is
absent from the only grid entry — yet `process_list_of_dicts` returns
normally, silently substituting Python `None` for `y`; no
`MissingParameter` error exists in the code. -/
theorem c8_counterexample :
    process_list_of_dicts
        [("x", some (some (5 : Nat))), ("d", none), ("y", none)] [1] [[]]
      = ([[("x", some 5), ("y", (none : Option Nat))]], ["d"]) := by
  rfl

/-- C8, amended: every non-data parameter missing from a grid entry is
filled in before the function is invoked — with its declared default when
one exists, and with Python `None` when the parameter has no default;
a non-default, non-data parameter absent from every grid entry is thus
silently bound to `None` rather than raising an error. -/
theorem c8_defaults_filled {V : Type} (sig : List (String × Option (Option V)))
    (dataParams : List Nat) (grids : List (PDict V)) (j : Nat) (d : PDict V)
    (k : String) (w : Option (Option V))
    (hnodup : (sig.map Prod.fst).Nodup)
    (hj : grids[j]? = some d)
    (hmem : (k, w) ∈ sig)
    (hdata : (dataParamNames sig dataParams).contains k = false)
    (habsent : dictLookup d k = none) :
    dictLookup ((((process_list_of_dicts sig dataParams grids).1)[j]?).getD []) k
      = some (w.getD none) := by
  have hget : ((process_list_of_dicts sig dataParams grids).1)[j]?
      = some ((defaultParamValues sig (dataParamNames sig dataParams)).foldl
          (fun (d : PDict V) (p : String × Option V) => fillMissing d p.1 p.2) d) := by
    show ((defaultParamValues sig (dataParamNames sig dataParams)).foldl
        (fun (gs : List (PDict V)) (p : String × Option V) =>
          gs.map (fun d => fillMissing d p.1 p.2)) grids)[j]? = _
    rw [foldl_map_get
      (fun (p : String × Option V) (d : PDict V) => fillMissing d p.1 p.2) _ grids j,
      hj]
    rfl
  rw [hget]
  show dictLookup ((defaultParamValues sig (dataParamNames sig dataParams)).foldl
      (fun (d : PDict V) (p : String × Option V) => fillMissing d p.1 p.2) d) k
    = some (w.getD none)
  exact foldl_fill_lookup _ d k (w.getD none)
    (mem_defaultParamValues sig _ k w hmem hdata)
    (defaultParamValues_keys_nodup sig _ hnodup)
    habsent

/-- C8, witness: in the counterexample signature, the missing parameter
`x` (declared default 5) of the empty grid entry is filled with 5. -/
theorem c8_defaults_filled_witness :
    dictLookup ((((process_list_of_dicts
        [("x", some (some (5 : Nat))), ("d", none), ("y", none)] [1] [[]]).1)[0]?).getD [])
        "x"
      = some (some 5) :=
  c8_defaults_filled
    [("x", some (some (5 : Nat))), ("d", none), ("y", none)] [1] [[]] 0 [] "x"
    (some (some 5))
    (by decide) rfl (by decide) (by decide) rfl

/-- C9: the code evaluated at a failing input — with `result_as_params`
enabled, a result element whose provenance was `{a: 1}` and whose value is
2 is returned as `(None, 2)`: the first tuple component is the value of
`res[0].update({func_name: res[1]})`, which is the Python `None`, not the
updated provenance dictionary `{a: 1, f: 2}` that the claim (and the
mutation's evident intent) describes. -/
theorem c9_result_as_params_loses_provenance :
    applyResultAsParams true "f" [([("a", some (1 : Nat))], some 2)]
      = [((none : Option (PDict Nat)), some 2)] ∧
    (none : Option (PDict Nat))
      ≠ some (dictUpdate [("a", some 1)] [("f", some 2)]) := by
  exact ⟨rfl, by simp⟩

end NodeTool
